import Mathlib

/-!
# Covariance / correlation kernels: a shallow embedding

This file embeds the accumulation-and-merge engine of the `corr`/`cov`
compute kernels (`cov_state.h`, `corr.cc`) and the derived sequence
operations (`Shift`, `AutoCorr`) in Lean 4, and proves or refutes the
frozen specification claims about them.

Modelling conventions:
* C++ `double` is modelled as `ℚ` (exact arithmetic); floating rounding is
  out of scope for every claim treated here, which speak of exact values.
* `int64_t` / `int128_t` are modelled as `ℤ`; where a claim is about
  overflow the relevant bounds (`2^63`, `2^127`) are stated explicitly.
* An Arrow array is a `List (Option α)`: `none` is a null slot, `some v` a
  valid one.  The raw values buffer of an array is unspecified at null
  slots; the model fixes that unspecified content to `0`
  (`Option.getD · 0`), and no verified property depends on it.
* Arrow's pairwise (cascade) block summation `SumArray` /
  `SumArray2WithCovariance` only reorders additions, so over `ℚ` it equals
  the plain left-to-right sum; the model uses the plain sum.
* The C++ exception thrown by the float `Consume` path is modelled as
  `Except.error`; functions with no failure path are total.
-/

namespace ArrowAdditional

/-- An Arrow array slot: `none` is null, `some v` a valid value. -/
abbrev Arr (α : Type) := List (Option α)

/-- Number of null slots (`ArraySpan::GetNullCount`). -/
def nullCount (a : Arr α) : ℕ := a.countP (fun o => o.isNone)

/-- Number of valid slots (`length - GetNullCount`). -/
def validCount (a : Arr α) : ℕ := a.countP (fun o => o.isSome)

/-- Raw value buffer content: the stored value at a valid slot; the
unspecified buffer content at a null slot is fixed to `0`. -/
def rawVal [Zero α] (o : Option α) : α := o.getD 0

/-- `VarianceOptions{ddof, skip_nulls, min_count}`. -/
structure VarianceOptions where
  ddof : ℤ
  skip_nulls : Bool
  min_count : ℤ
deriving DecidableEq, Repr

/-- `CovarianceState` (cov_state.h:130): the covariance partial state. -/
structure CovarianceState where
  count : ℤ
  mean_x : ℚ
  mean_y : ℚ
  m_xy : ℚ
  all_valid : Bool
  decimal_scale : ℤ
  options : VarianceOptions
deriving DecidableEq, Repr

/-- The freshly constructed state (cov_state.h:135-141): zero moments,
`all_valid = true` by member default. -/
def initState (decimal_scale : ℤ) (options : VarianceOptions) : CovarianceState :=
  { count := 0, mean_x := 0, mean_y := 0, m_xy := 0,
    all_valid := true, decimal_scale := decimal_scale, options := options }

/-- `CovarianceState::MergeFrom` (cov_state.h:235-266).  Note that
`all_valid` is ANDed *before* the `other.count == 0` early return. -/
def CovarianceState.MergeFrom (s other : CovarianceState) : CovarianceState :=
  let s := { s with all_valid := s.all_valid && other.all_valid }
  if other.count = 0 then s
  else if s.count = 0 then
    { s with
      count := other.count
      mean_x := other.mean_x
      mean_y := other.mean_y
      m_xy := other.m_xy }
  else
    let count1 := s.count
    let count2 := other.count
    let newCount := count1 + count2
    let mX : ℚ := (s.mean_x * (count1 : ℚ) + other.mean_x * (count2 : ℚ)) / (newCount : ℚ)
    let mY : ℚ := (s.mean_y * (count1 : ℚ) + other.mean_y * (count2 : ℚ)) / (newCount : ℚ)
    let mXY : ℚ := s.m_xy + (other.m_xy
        + (count1 : ℚ) * (s.mean_x - mX) * (s.mean_y - mY)
        + (count2 : ℚ) * (other.mean_x - mX) * (other.mean_y - mY))
    { s with
      count := newCount
      mean_x := mX
      mean_y := mY
      m_xy := mXY }

/-- The exact covariance partial state of a list of `(x, y)` pairs: the
state a correct accumulator holds after seeing exactly these pairs.
`mean` is the exact mean and `m_xy` the exact sum of centred
cross-products (spec §3). -/
def stateOfList (ds : ℤ) (opts : VarianceOptions) (av : Bool)
    (L : List (ℚ × ℚ)) : CovarianceState :=
  let n : ℤ := L.length
  let mx : ℚ := (L.map Prod.fst).sum / (n : ℚ)
  let my : ℚ := (L.map Prod.snd).sum / (n : ℚ)
  { count := n, mean_x := mx, mean_y := my,
    m_xy := (L.map (fun p => (p.1 - mx) * (p.2 - my))).sum,
    all_valid := av, decimal_scale := ds, options := opts }

/-- `CorrelationState` (cov_state.h:277-287): wraps a `CovarianceState`
and adds the per-operand sums of squared deviations. -/
structure CorrelationState where
  mx2 : ℚ
  my2 : ℚ
  covarianceState : CovarianceState
deriving DecidableEq, Repr

/-- `CorrelationState::MergeVarStd2` (cov_state.h:312-322); returns the
updated `*out_m2` (last argument is the incoming `*out_m2`). -/
def MergeVarStd2 (count1 : ℤ) (mean1 : ℚ) (count2 : ℤ) (mean2 : ℚ)
    (m22 : ℚ) (m2 : ℚ) : ℚ :=
  let mean : ℚ := (mean1 * (count1 : ℚ) + mean2 * (count2 : ℚ))
      / ((count1 + count2 : ℤ) : ℚ)
  m2 + (m22 + (count1 : ℚ) * (mean1 - mean) * (mean1 - mean)
      + (count2 : ℚ) * (mean2 - mean) * (mean2 - mean))

/-- `CorrelationState::MergeFrom` (cov_state.h:324-332): snapshots the
receiver's count/means, merges the wrapped covariance states, then
combines `mx2`/`my2` with the pre-merge means of both sides. -/
def CorrelationState.MergeFrom (s o : CorrelationState) : CorrelationState :=
  let count1 := s.covarianceState.count
  let meanx := s.covarianceState.mean_x
  let meany := s.covarianceState.mean_y
  let cov := s.covarianceState.MergeFrom o.covarianceState
  { mx2 := MergeVarStd2 count1 meanx o.covarianceState.count
      o.covarianceState.mean_x o.mx2 s.mx2
    my2 := MergeVarStd2 count1 meany o.covarianceState.count
      o.covarianceState.mean_y o.my2 s.my2
    covarianceState := cov }

/-- The chunk predicate written into `all_valid` by both `Consume` paths
(cov_state.h:155, 203): the chunk contains no null in either operand. -/
def chunkAllValid (ax ay : Arr α) : Bool :=
  decide (nullCount ax = 0) && decide (nullCount ay = 0)

/-- Values of the valid slots of one array, in order: what `SumArray`
(skipping null runs) sums over. -/
def validValues (a : Arr α) : List α := a.filterMap id

/-- `SumArray` over one array with a per-value function (plain `ℚ` sum;
Arrow's pairwise block reduction only reorders additions). -/
def sumValidWith (a : Arr ℚ) (f : ℚ → ℚ) : ℚ := ((validValues a).map f).sum

/-- `SumArray` over the values themselves. -/
def sumValid (a : Arr ℚ) : ℚ := (validValues a).sum

/-- The `(x, y)` pairs visited by `VisitSetBitRunsVoid` over the *x*
validity bitmap (cov_state.h:64, 180): positions where `x` is valid, the
`y` raw buffer value being read regardless of `y`'s own validity. -/
def xValidPairs [Zero α] (ax ay : Arr α) : List (α × α) :=
  (ax.zip ay).filterMap (fun p => p.1.map (fun vx => (vx, rawVal p.2)))

/-- `SumArray2WithCovariance` (cov_state.h:21-97), as the plain sum of
`func` over the pairs at x-valid positions (the cascade reduction only
reorders `ℚ` additions). -/
def sumArray2 (ax ay : Arr ℚ) (f : ℚ → ℚ → ℚ) : ℚ :=
  ((xValidPairs ax ay).map (fun p => f p.1 p.2)).sum

/-- `CovarianceState::Consume`, float / wide-integer path
(cov_state.h:200-233).  The `throw std::runtime_error` on mismatched
valid counts is modelled as `Except.error`.  Note the fields are
*assigned*, not accumulated. -/
def ConsumeFloat (s : CovarianceState) (ax ay : Arr ℚ) :
    Except String CovarianceState :=
  let av := chunkAllValid ax ay
  let s1 := { s with all_valid := av }
  let countX : ℤ := (ax.length : ℤ) - (nullCount ax : ℤ)
  let countY : ℤ := (ay.length : ℤ) - (nullCount ay : ℤ)
  if countX ≠ countY then
    Except.error "valid values from array1 must equal array2"
  else if countX = 0 ∨ (av = false ∧ s1.options.skip_nulls = false) then
    Except.ok s1
  else
    let meanX : ℚ := sumValid ax / (countX : ℚ)
    let meanY : ℚ := sumValid ay / (countX : ℚ)
    let mXY : ℚ := sumArray2 ax ay (fun vx vy => (vx - meanX) * (vy - meanY))
    Except.ok { s1 with
      count := countX
      mean_x := meanX
      mean_y := meanY
      m_xy := mXY }

/-- `CorrelationState::Consume` (cov_state.h:291-310): runs the wrapped
covariance `Consume`, then *assigns* `mx2`/`my2` from this chunk alone,
centred at the means the covariance state now holds. -/
def CorrelationState.Consume (st : CorrelationState) (ax ay : Arr ℚ) :
    Except String CorrelationState :=
  match ConsumeFloat st.covarianceState ax ay with
  | Except.error e => Except.error e
  | Except.ok cs =>
    Except.ok
      { covarianceState := cs
        mx2 := sumValidWith ax (fun v => (v - cs.mean_x) * (v - cs.mean_x))
        my2 := sumValidWith ay (fun v => (v - cs.mean_y) * (v - cs.mean_y)) }

/-- `IntegerCovariance` (cov_state.h:100-127).  `sum_xy` is `int128_t` in
the source; modelled as `ℤ` (the no-overflow claim C7 bounds it below
`2^127`). -/
structure IntegerCovariance where
  count : ℤ
  sum_x : ℤ
  sum_y : ℤ
  sum_xy : ℤ
deriving DecidableEq, Repr

/-- `IntegerCovariance::ConsumeOne` (cov_state.h:108-113). -/
def IntegerCovariance.ConsumeOne (c : IntegerCovariance) (x y : ℤ) :
    IntegerCovariance :=
  { count := c.count + 1
    sum_x := c.sum_x + x
    sum_y := c.sum_y + y
    sum_xy := c.sum_xy + x * y }

/-- `IntegerCovariance::mean_x` (cov_state.h:115). -/
def IntegerCovariance.mean_x (c : IntegerCovariance) : ℚ :=
  (c.sum_x : ℚ) / (c.count : ℚ)

/-- `IntegerCovariance::mean_y` (cov_state.h:117). -/
def IntegerCovariance.mean_y (c : IntegerCovariance) : ℚ :=
  (c.sum_y : ℚ) / (c.count : ℚ)

/-- `IntegerCovariance::m_xy` (cov_state.h:119-126): decompose
`sum_x*sum_y / count` into the exact (C++ truncated) integer quotient and
remainder; only the remainder is converted to double.  C++ `/` and `%` on
signed integers truncate toward zero: `Int.tdiv` / `Int.tmod`. -/
def IntegerCovariance.m_xy (c : IntegerCovariance) : ℚ :=
  let sumSquare : ℤ := c.sum_x * c.sum_y
  let integers : ℤ := sumSquare.tdiv c.count
  let fractions : ℚ := ((sumSquare.tmod c.count : ℤ) : ℚ) / (c.count : ℚ)
  ((c.sum_xy - integers : ℤ) : ℚ) - fractions

/-- A fresh `IntegerCovariance` after one `ConsumeOne` per pair of `L`. -/
def intConsumeList (L : List (ℤ × ℤ)) : IntegerCovariance :=
  L.foldl (fun c p => c.ConsumeOne p.1 p.2) ⟨0, 0, 0, 0⟩

/-- One slice of the integer `Consume` path (cov_state.h:176-196): a
fresh `IntegerCovariance` consumes the pairs at x-valid positions of the
slice, and its exact moments are packaged as a `CovarianceState` (fresh,
hence `all_valid = true`). -/
def intChunkState (ds : ℤ) (opts : VarianceOptions) (sx sy : Arr ℤ) :
    CovarianceState :=
  let cov := intConsumeList (xValidPairs sx sy)
  { count := cov.count
    mean_x := cov.mean_x
    mean_y := cov.mean_y
    m_xy := cov.m_xy
    all_valid := true
    decimal_scale := ds
    options := opts }

/-- `max_length` of the integer path (cov_state.h:154):
`1ULL << (63 - sizeof(CType) * 8)` for bit width `w = 8 * sizeof(CType)`. -/
def intPathMaxLen (w : ℕ) : ℕ := 2 ^ (63 - w)

/-- The chunking loop of the integer `Consume` path (cov_state.h:163-197):
repeatedly slice off `max_length` elements, accumulate the slice exactly,
and fold it into the running state via `MergeFrom`, while both operands
still have valid elements remaining. -/
def consumeLoop (w : ℕ) (s : CovarianceState) (xs ys : Arr ℤ) :
    CovarianceState :=
  if h : validCount xs = 0 ∨ validCount ys = 0 then s
  else
    let maxLen := intPathMaxLen w
    let sliceX := xs.take maxLen
    let sliceY := ys.take maxLen
    let s' := if 0 < validCount sliceX ∧ 0 < validCount sliceY
      then s.MergeFrom (intChunkState s.decimal_scale s.options sliceX sliceY)
      else s
    consumeLoop w s' (xs.drop maxLen) (ys.drop maxLen)
termination_by xs.length
decreasing_by
  simp only [List.length_drop]
  have hm : 0 < intPathMaxLen w := Nat.pos_pow_of_pos _ (by norm_num)
  have hx : xs ≠ [] := by
    intro hnil
    exact h (Or.inl (by simp [hnil, validCount]))
  have hlen : 0 < xs.length := List.length_pos.mpr hx
  omega

/-- `CovarianceState::Consume`, narrow-integer path (cov_state.h:150-198),
for element bit width `w`.  There is no valid-count check and no error
path here: the function is total. -/
def ConsumeInt (w : ℕ) (s : CovarianceState) (xs ys : Arr ℤ) :
    CovarianceState :=
  let av := chunkAllValid xs ys
  let s1 := { s with all_valid := av }
  if av = false ∧ s1.options.skip_nulls = false then s1
  else consumeLoop w s1 xs ys

/-- `CovarianceImpl::Finalize` (corr.cc, covariance file, lines 332-345):
`none` models the null `DoubleScalar` ("no value"). -/
def FinalizeCov (s : CovarianceState) : Option ℚ :=
  if s.count ≤ s.options.ddof ∨ s.count < s.options.min_count
      ∨ (s.all_valid = false ∧ s.options.skip_nulls = false) then none
  else some (s.m_xy / ((s.count - s.options.ddof : ℤ) : ℚ))

/-- `CorrelationImpl::Finalize` (corr.cc:46-64).  The returned correlation
is `covar / (sqrt(mx2/(n-ddof)) * sqrt(my2/(n-ddof)))`; square roots
leave `ℚ`, so the model exposes the triple
`(mx2/(n-ddof), my2/(n-ddof), covar)` from which that value is formed.
The validity gate (`none` versus `some`) is exactly the source's. -/
def FinalizeCorr (st : CorrelationState) : Option (ℚ × ℚ × ℚ) :=
  let cs := st.covarianceState
  if cs.count ≤ cs.options.ddof ∨ cs.count < cs.options.min_count
      ∨ (cs.all_valid = false ∧ cs.options.skip_nulls = false) then none
  else
    let d : ℚ := ((cs.count - cs.options.ddof : ℤ) : ℚ)
    some (st.mx2 / d, st.my2 / d, cs.m_xy / d)

/-- `ShiftImpl::Execute` (shift file, lines 192-237).  A slot of the
output is `fill` at filled positions: `AppendScalar(*replace_value_)`
appends the fill scalar (`some v`, or `none` when the fill scalar is a
null scalar, as `AutoCorr` passes), and `AppendNulls` (no fill given)
appends `none`; both builder branches therefore place the slot `fill`. -/
def shiftList (x : Arr α) (periods : ℤ) (fill : Option α) : Arr α :=
  let N := x.length
  let shiftLen := periods.natAbs
  if 0 < periods then List.replicate shiftLen fill ++ x.take (N - shiftLen)
  else x.drop shiftLen ++ List.replicate shiftLen fill

/-- `VarianceOptions::Defaults()`: `ddof = 0`, `skip_nulls = true`,
`min_count = 0` — the options the registered `cov` kernel uses when
`CallFunction("cov", ...)` is given no options, as in `AutoCorr`. -/
def defaultVarianceOptions : VarianceOptions := ⟨0, true, 0⟩

/-- Arrow's scalar `divide` on two double datums with null propagation
(a null operand gives a null result).  IEEE division by zero (→ ±Inf/NaN)
is outside `ℚ`; no verified statement depends on it. -/
def divideOpt (a b : Option ℚ) : Option ℚ :=
  match a, b with
  | some x, some y => some (x / y)
  | _, _ => none

/-- Modelled from the spec: Arrow's builtin `Variance` (external to this
repository) as used by `AutoCorr`.  Per spec §8,
`Covariance(x, x, ddof) == Variance(x, ddof)` exactly, so it is modelled
as self-covariance under the default `VarianceOptions` (`ddof = 0`),
which is what `Variance(input)` with no options uses. -/
def varianceDatum (input : Arr ℚ) : Option ℚ :=
  match ConsumeFloat (initState 0 defaultVarianceOptions) input input with
  | Except.ok s => FinalizeCov s
  | Except.error _ => none

/-- `AutoCorr` (api_additional.cc:27-45): length guard, shift by `lag`
with a null fill scalar, covariance of input with shifted, variance of
input, and the two scalar divisions.  The covariance runs on the float
path for floating/wide inputs; its thrown exception propagates out of
`AutoCorr` (modelled as `Except.error`). -/
def AutoCorr (input : Arr ℚ) (lag : ℤ) : Except String (Option ℚ) :=
  if (input.length : ℤ) < lag then
    Except.error "Lag cannot be greater than the length of the array"
  else
    let shifted := shiftList input lag none
    match ConsumeFloat (initState 0 defaultVarianceOptions) input shifted with
    | Except.error e => Except.error e
    | Except.ok covState =>
      let cov := FinalizeCov covState
      let var := varianceDatum input
      Except.ok (divideOpt (divideOpt cov var)
        (some ((input.length : ℚ) - 1 - (lag : ℚ))))

/-- The state produced by the success branch of the float `Consume` path
(cov_state.h:215-232): every mutable field is assigned from the current
chunk alone. -/
def floatChunkResult (ds : ℤ) (opts : VarianceOptions) (ax ay : Arr ℚ) :
    CovarianceState :=
  let countX : ℤ := (ax.length : ℤ) - (nullCount ax : ℤ)
  let meanX : ℚ := sumValid ax / (countX : ℚ)
  let meanY : ℚ := sumValid ay / (countX : ℚ)
  { count := countX
    mean_x := meanX
    mean_y := meanY
    m_xy := sumArray2 ax ay (fun vx vy => (vx - meanX) * (vy - meanY))
    all_valid := chunkAllValid ax ay
    decimal_scale := ds
    options := opts }

/-- Accumulator histories obeying the intended usage discipline: a fresh
accumulator, or a fresh accumulator that Consumed exactly one chunk (by
either path) as its first operation, or a merge of two such accumulators.
The `List Bool` records, for every chunk in the history, whether that
chunk contained no null in either operand. -/
inductive WfAcc (ds : ℤ) (opts : VarianceOptions) :
    CovarianceState → List Bool → Prop
  | fresh : WfAcc ds opts (initState ds opts) []
  | consumeF (ax ay : Arr ℚ) (s : CovarianceState) :
      ConsumeFloat (initState ds opts) ax ay = Except.ok s →
      WfAcc ds opts s [chunkAllValid ax ay]
  | consumeI (w : ℕ) (ax ay : Arr ℤ) :
      WfAcc ds opts (ConsumeInt w (initState ds opts) ax ay)
        [chunkAllValid ax ay]
  | merge (s o : CovarianceState) (bs cs : List Bool) :
      WfAcc ds opts s bs → WfAcc ds opts o cs →
      WfAcc ds opts (s.MergeFrom o) (bs ++ cs)

section SumLemmas

/-- Expansion of a sum of shifted cross-products over an arbitrary centre. -/
theorem sum_centered (L : List (ℚ × ℚ)) (a b : ℚ) :
    (L.map (fun p => (p.1 - a) * (p.2 - b))).sum
      = (L.map (fun p => p.1 * p.2)).sum
        - a * (L.map Prod.snd).sum - b * (L.map Prod.fst).sum
        + (L.length : ℚ) * a * b := by
  induction L with
  | nil => simp
  | cons p L ih =>
    simp only [List.map_cons, List.sum_cons, List.length_cons, ih]
    push_cast
    ring

end SumLemmas

section MergeLemmas

theorem mergeFrom_all_valid (s o : CovarianceState) :
    (s.MergeFrom o).all_valid = (s.all_valid && o.all_valid) := by
  simp only [CovarianceState.MergeFrom]
  split <;> [skip; split] <;> rfl

theorem mergeFrom_other_empty (s o : CovarianceState) (ho : o.count = 0) :
    (s.MergeFrom o).count = s.count ∧ (s.MergeFrom o).mean_x = s.mean_x
      ∧ (s.MergeFrom o).mean_y = s.mean_y ∧ (s.MergeFrom o).m_xy = s.m_xy := by
  simp [CovarianceState.MergeFrom, ho]

theorem mergeFrom_self_empty (s o : CovarianceState) (hs : s.count = 0)
    (ho : o.count ≠ 0) :
    (s.MergeFrom o).count = o.count ∧ (s.MergeFrom o).mean_x = o.mean_x
      ∧ (s.MergeFrom o).mean_y = o.mean_y ∧ (s.MergeFrom o).m_xy = o.m_xy := by
  simp [CovarianceState.MergeFrom, ho, hs]

theorem mergeFrom_count (s o : CovarianceState) (hs : s.count ≠ 0)
    (ho : o.count ≠ 0) : (s.MergeFrom o).count = s.count + o.count := by
  simp [CovarianceState.MergeFrom, hs, ho]

theorem mergeFrom_mean_x (s o : CovarianceState) (hs : s.count ≠ 0)
    (ho : o.count ≠ 0) :
    (s.MergeFrom o).mean_x
      = (s.mean_x * (s.count : ℚ) + o.mean_x * (o.count : ℚ))
        / ((s.count : ℚ) + (o.count : ℚ)) := by
  simp [CovarianceState.MergeFrom, hs, ho]

theorem mergeFrom_mean_y (s o : CovarianceState) (hs : s.count ≠ 0)
    (ho : o.count ≠ 0) :
    (s.MergeFrom o).mean_y
      = (s.mean_y * (s.count : ℚ) + o.mean_y * (o.count : ℚ))
        / ((s.count : ℚ) + (o.count : ℚ)) := by
  simp [CovarianceState.MergeFrom, hs, ho]

theorem mergeFrom_m_xy (s o : CovarianceState) (hs : s.count ≠ 0)
    (ho : o.count ≠ 0) :
    (s.MergeFrom o).m_xy
      = s.m_xy + o.m_xy
        + (s.count : ℚ) * (s.mean_x - (s.MergeFrom o).mean_x)
            * (s.mean_y - (s.MergeFrom o).mean_y)
        + (o.count : ℚ) * (o.mean_x - (s.MergeFrom o).mean_x)
            * (o.mean_y - (s.MergeFrom o).mean_y) := by
  simp [CovarianceState.MergeFrom, hs, ho]
  ring_nf

end MergeLemmas

section StateOfListLemmas

theorem stateOfList_m_xy (ds : ℤ) (opts : VarianceOptions) (av : Bool)
    (L : List (ℚ × ℚ)) (hL : L ≠ []) :
    (stateOfList ds opts av L).m_xy
      = (L.map (fun p => p.1 * p.2)).sum
        - (L.map Prod.fst).sum * (L.map Prod.snd).sum / (L.length : ℚ) := by
  have hn : (L.length : ℚ) ≠ 0 := by
    simpa using hL
  simp only [stateOfList, sum_centered]
  field_simp
  ring

end StateOfListLemmas

/-- C1: for two states with positive counts, `MergeFrom` sets the count to
the sum, each mean to the count-weighted average, and `m_xy` to
`m_xy1 + m_xy2 + count1*(mean_x1-M)*(mean_y1-M') + count2*(mean_x2-M)*(mean_y2-M')`
with `M`, `M'` the merged means; consequently, in exact arithmetic,
merging the exact partial states of two disjoint non-empty input lists
yields exactly the partial state of their concatenation. -/
theorem merge_combines_disjoint_partitions :
    (∀ s o : CovarianceState, 0 < s.count → 0 < o.count →
      (s.MergeFrom o).count = s.count + o.count
      ∧ (s.MergeFrom o).mean_x
          = (s.mean_x * (s.count : ℚ) + o.mean_x * (o.count : ℚ))
            / ((s.count : ℚ) + (o.count : ℚ))
      ∧ (s.MergeFrom o).mean_y
          = (s.mean_y * (s.count : ℚ) + o.mean_y * (o.count : ℚ))
            / ((s.count : ℚ) + (o.count : ℚ))
      ∧ (s.MergeFrom o).m_xy
          = s.m_xy + o.m_xy
            + (s.count : ℚ) * (s.mean_x - (s.MergeFrom o).mean_x)
                * (s.mean_y - (s.MergeFrom o).mean_y)
            + (o.count : ℚ) * (o.mean_x - (s.MergeFrom o).mean_x)
                * (o.mean_y - (s.MergeFrom o).mean_y))
    ∧ (∀ (ds : ℤ) (opts : VarianceOptions) (av av' : Bool)
        (L1 L2 : List (ℚ × ℚ)), L1 ≠ [] → L2 ≠ [] →
      ((stateOfList ds opts av L1).MergeFrom (stateOfList ds opts av' L2)).count
          = (stateOfList ds opts av (L1 ++ L2)).count
      ∧ ((stateOfList ds opts av L1).MergeFrom (stateOfList ds opts av' L2)).mean_x
          = (stateOfList ds opts av (L1 ++ L2)).mean_x
      ∧ ((stateOfList ds opts av L1).MergeFrom (stateOfList ds opts av' L2)).mean_y
          = (stateOfList ds opts av (L1 ++ L2)).mean_y
      ∧ ((stateOfList ds opts av L1).MergeFrom (stateOfList ds opts av' L2)).m_xy
          = (stateOfList ds opts av (L1 ++ L2)).m_xy) := by
  constructor
  · intro s o hs ho
    have hs' : s.count ≠ 0 := by omega
    have ho' : o.count ≠ 0 := by omega
    exact ⟨mergeFrom_count s o hs' ho', mergeFrom_mean_x s o hs' ho',
      mergeFrom_mean_y s o hs' ho', mergeFrom_m_xy s o hs' ho'⟩
  · intro ds opts av av' L1 L2 h1 h2
    have hn1 : (0 : ℤ) < L1.length := by
      exact_mod_cast List.length_pos.mpr h1
    have hn2 : (0 : ℤ) < L2.length := by
      exact_mod_cast List.length_pos.mpr h2
    have hq1 : ((L1.length : ℚ)) ≠ 0 := by simpa using h1
    have hq2 : ((L2.length : ℚ)) ≠ 0 := by simpa using h2
    have hq12 : ((L1.length : ℚ) + (L2.length : ℚ)) ≠ 0 := by positivity
    have hc1 : (stateOfList ds opts av L1).count ≠ 0 := by
      simp only [stateOfList]; omega
    have hc2 : (stateOfList ds opts av' L2).count ≠ 0 := by
      simp only [stateOfList]; omega
    have hcount1 : (stateOfList ds opts av L1).count = (L1.length : ℤ) := rfl
    have hcount2 : (stateOfList ds opts av' L2).count = (L2.length : ℤ) := rfl
    refine ⟨?_, ?_, ?_, ?_⟩
    · rw [mergeFrom_count _ _ hc1 hc2]
      simp [stateOfList]
    · rw [mergeFrom_mean_x _ _ hc1 hc2]
      simp only [stateOfList, List.map_append, List.sum_append, List.length_append,
        hcount1, hcount2, Int.cast_natCast]
      push_cast
      field_simp
    · rw [mergeFrom_mean_y _ _ hc1 hc2]
      simp only [stateOfList, List.map_append, List.sum_append, List.length_append,
        hcount1, hcount2, Int.cast_natCast]
      push_cast
      field_simp
    · rw [mergeFrom_m_xy _ _ hc1 hc2, mergeFrom_mean_x _ _ hc1 hc2,
        mergeFrom_mean_y _ _ hc1 hc2,
        stateOfList_m_xy ds opts av L1 h1, stateOfList_m_xy ds opts av' L2 h2,
        stateOfList_m_xy ds opts av (L1 ++ L2) (by simp [h1])]
      simp only [stateOfList, List.map_append, List.sum_append, List.length_append,
        hcount1, hcount2, Int.cast_natCast]
      push_cast
      field_simp
      ring

/-- Witness for C1 at concrete inputs. -/
theorem merge_combines_disjoint_partitions_witness :
    ((stateOfList 0 ⟨1, true, 0⟩ true [(1, 2)]).MergeFrom
        (stateOfList 0 ⟨1, true, 0⟩ true [(3, 4)])).m_xy
      = (stateOfList 0 ⟨1, true, 0⟩ true ([(1, 2)] ++ [(3, 4)])).m_xy := by
  exact (merge_combines_disjoint_partitions.2 0 ⟨1, true, 0⟩ true true
    [(1, 2)] [(3, 4)] (by decide) (by decide)).2.2.2

/-- C2 counterexample: an empty state (`count == 0`) is *not* an identity
of `MergeFrom`: merging an empty state whose `all_valid` flag is `false`
(such a state arises from consuming a null-containing chunk under
`skip_nulls = false`) into a receiver with `all_valid = true` clears the
receiver's flag, so the receiver is changed. -/
theorem merge_empty_not_noop_cex :
    CovarianceState.MergeFrom
        ⟨1, 0, 0, 0, true, 0, ⟨1, true, 0⟩⟩
        ⟨0, 0, 0, 0, false, 0, ⟨1, true, 0⟩⟩
      ≠ ⟨1, 0, 0, 0, true, 0, ⟨1, true, 0⟩⟩ := by
  decide

/-- C2 (amended): `count == 0` is the identity of `MergeFrom` for the
numeric fields only; `all_valid` is always replaced by the conjunction of
the two flags.  For covariance states: merging an empty state into `s`
leaves `count`, `mean_x`, `mean_y`, `m_xy` unchanged, and merging a
non-empty `o` into an empty receiver copies `o`'s numeric fields.  For
correlation states the same holds provided the empty side is a *fresh*
empty state (`mx2 = my2 = 0`) and, in the no-op case, the receiver is
non-empty. -/
theorem merge_empty_identity_up_to_all_valid :
    (∀ s e : CovarianceState, e.count = 0 →
      (s.MergeFrom e).count = s.count ∧ (s.MergeFrom e).mean_x = s.mean_x
        ∧ (s.MergeFrom e).mean_y = s.mean_y ∧ (s.MergeFrom e).m_xy = s.m_xy
        ∧ (s.MergeFrom e).all_valid = (s.all_valid && e.all_valid))
    ∧ (∀ s o : CovarianceState, s.count = 0 → o.count ≠ 0 →
      (s.MergeFrom o).count = o.count ∧ (s.MergeFrom o).mean_x = o.mean_x
        ∧ (s.MergeFrom o).mean_y = o.mean_y ∧ (s.MergeFrom o).m_xy = o.m_xy
        ∧ (s.MergeFrom o).all_valid = (s.all_valid && o.all_valid))
    ∧ (∀ S E : CorrelationState, E.covarianceState.count = 0 →
        E.mx2 = 0 → E.my2 = 0 → S.covarianceState.count ≠ 0 →
      (S.MergeFrom E).mx2 = S.mx2 ∧ (S.MergeFrom E).my2 = S.my2
        ∧ (S.MergeFrom E).covarianceState.count = S.covarianceState.count
        ∧ (S.MergeFrom E).covarianceState.mean_x = S.covarianceState.mean_x
        ∧ (S.MergeFrom E).covarianceState.mean_y = S.covarianceState.mean_y
        ∧ (S.MergeFrom E).covarianceState.m_xy = S.covarianceState.m_xy
        ∧ (S.MergeFrom E).covarianceState.all_valid
            = (S.covarianceState.all_valid && E.covarianceState.all_valid))
    ∧ (∀ S O : CorrelationState, S.covarianceState.count = 0 →
        S.mx2 = 0 → S.my2 = 0 → O.covarianceState.count ≠ 0 →
      (S.MergeFrom O).mx2 = O.mx2 ∧ (S.MergeFrom O).my2 = O.my2
        ∧ (S.MergeFrom O).covarianceState.count = O.covarianceState.count
        ∧ (S.MergeFrom O).covarianceState.mean_x = O.covarianceState.mean_x
        ∧ (S.MergeFrom O).covarianceState.mean_y = O.covarianceState.mean_y
        ∧ (S.MergeFrom O).covarianceState.m_xy = O.covarianceState.m_xy
        ∧ (S.MergeFrom O).covarianceState.all_valid
            = (S.covarianceState.all_valid && O.covarianceState.all_valid)) := by
  have hvar_empty2 : ∀ (c1 : ℤ) (mean1 mean2 m2 : ℚ), c1 ≠ 0 →
      MergeVarStd2 c1 mean1 0 mean2 0 m2 = m2 := by
    intro c1 mean1 mean2 m2 hc1
    have hq : (c1 : ℚ) ≠ 0 := Int.cast_ne_zero.mpr hc1
    simp only [MergeVarStd2]
    push_cast
    field_simp
  have hvar_empty1 : ∀ (c2 : ℤ) (mean1 mean2 m22 : ℚ), c2 ≠ 0 →
      MergeVarStd2 0 mean1 c2 mean2 m22 0 = m22 := by
    intro c2 mean1 mean2 m22 hc2
    have hq : (c2 : ℚ) ≠ 0 := Int.cast_ne_zero.mpr hc2
    simp only [MergeVarStd2]
    push_cast
    field_simp
  refine ⟨?_, ?_, ?_, ?_⟩
  · intro s e he
    obtain ⟨h1, h2, h3, h4⟩ := mergeFrom_other_empty s e he
    exact ⟨h1, h2, h3, h4, mergeFrom_all_valid s e⟩
  · intro s o hs ho
    obtain ⟨h1, h2, h3, h4⟩ := mergeFrom_self_empty s o hs ho
    exact ⟨h1, h2, h3, h4, mergeFrom_all_valid s o⟩
  · intro S E he hex hey hS
    obtain ⟨h1, h2, h3, h4⟩ := mergeFrom_other_empty S.covarianceState
      E.covarianceState he
    refine ⟨?_, ?_, h1, h2, h3, h4,
      mergeFrom_all_valid S.covarianceState E.covarianceState⟩
    · simp only [CorrelationState.MergeFrom, he, hex]
      exact hvar_empty2 _ _ _ _ hS
    · simp only [CorrelationState.MergeFrom, he, hey]
      exact hvar_empty2 _ _ _ _ hS
  · intro S O hs hsx hsy hO
    obtain ⟨h1, h2, h3, h4⟩ := mergeFrom_self_empty S.covarianceState
      O.covarianceState hs hO
    refine ⟨?_, ?_, h1, h2, h3, h4,
      mergeFrom_all_valid S.covarianceState O.covarianceState⟩
    · simp only [CorrelationState.MergeFrom, hs, hsx]
      exact hvar_empty1 _ _ _ _ hO
    · simp only [CorrelationState.MergeFrom, hs, hsy]
      exact hvar_empty1 _ _ _ _ hO

/-- Witness for the amended C2 at concrete states. -/
theorem merge_empty_identity_up_to_all_valid_witness :
    (CovarianceState.MergeFrom
        ⟨2, 3, 4, 5, true, 0, ⟨1, true, 0⟩⟩
        ⟨0, 7, 8, 9, true, 0, ⟨1, true, 0⟩⟩).m_xy = 5 := by
  exact (merge_empty_identity_up_to_all_valid.1
    ⟨2, 3, 4, 5, true, 0, ⟨1, true, 0⟩⟩
    ⟨0, 7, 8, 9, true, 0, ⟨1, true, 0⟩⟩ rfl).2.2.2.1

/-- C5: `Finalize` yields "no value" exactly when `count <= ddof`, or
`count < min_count`, or (`all_valid` is false and `skip_nulls` is false)
— for the covariance and the correlation finalizer alike — and otherwise
the covariance finalizer yields `m_xy / (count - ddof)`; at the boundary,
`count == ddof` yields "no value" and `count == ddof + 1` (other gates
passing) yields the numeric value. -/
theorem finalize_gate_and_value :
    (∀ s : CovarianceState,
      FinalizeCov s = none
        ↔ (s.count ≤ s.options.ddof ∨ s.count < s.options.min_count
            ∨ (s.all_valid = false ∧ s.options.skip_nulls = false)))
    ∧ (∀ s : CovarianceState,
      ¬(s.count ≤ s.options.ddof ∨ s.count < s.options.min_count
          ∨ (s.all_valid = false ∧ s.options.skip_nulls = false)) →
      FinalizeCov s = some (s.m_xy / ((s.count - s.options.ddof : ℤ) : ℚ)))
    ∧ (∀ st : CorrelationState,
      FinalizeCorr st = none
        ↔ (st.covarianceState.count ≤ st.covarianceState.options.ddof
            ∨ st.covarianceState.count < st.covarianceState.options.min_count
            ∨ (st.covarianceState.all_valid = false
                ∧ st.covarianceState.options.skip_nulls = false)))
    ∧ (∀ s : CovarianceState, s.count = s.options.ddof → FinalizeCov s = none)
    ∧ (∀ s : CovarianceState, s.count = s.options.ddof + 1 →
        s.options.min_count ≤ s.count →
        (s.all_valid = true ∨ s.options.skip_nulls = true) →
        FinalizeCov s = some (s.m_xy / ((s.count - s.options.ddof : ℤ) : ℚ))) := by
  refine ⟨?_, ?_, ?_, ?_, ?_⟩
  · intro s
    unfold FinalizeCov
    split_ifs with h <;> simp [h]
  · intro s h
    unfold FinalizeCov
    rw [if_neg h]
  · intro st
    simp only [FinalizeCorr]
    split_ifs with h <;> simp [h]
  · intro s h
    unfold FinalizeCov
    rw [if_pos (Or.inl (le_of_eq h))]
  · intro s h1 h2 h3
    unfold FinalizeCov
    rw [if_neg]
    push_neg
    refine ⟨by omega, by omega, ?_⟩
    intro hv
    rcases h3 with h3 | h3
    · rw [hv] at h3; cases h3
    · simp [h3]

/-- Witness for C5: a state with `count = ddof + 1 = 2`, all gates
passing, finalizes to `m_xy / (count - ddof) = 10`. -/
theorem finalize_gate_and_value_witness :
    FinalizeCov ⟨2, 0, 0, 10, true, 0, ⟨1, true, 0⟩⟩ = some 10 := by
  have h := finalize_gate_and_value.2.2.2.2 ⟨2, 0, 0, 10, true, 0, ⟨1, true, 0⟩⟩
    rfl (by norm_num) (Or.inl rfl)
  simpa using h

section IntegerAccumLemmas

/-- Closed form of an `IntegerCovariance` fold from an arbitrary start. -/
theorem intConsumeList_foldl (c : IntegerCovariance) (L : List (ℤ × ℤ)) :
    L.foldl (fun a p => a.ConsumeOne p.1 p.2) c
      = ⟨c.count + L.length, c.sum_x + (L.map Prod.fst).sum,
         c.sum_y + (L.map Prod.snd).sum,
         c.sum_xy + (L.map (fun p => p.1 * p.2)).sum⟩ := by
  induction L generalizing c with
  | nil => simp
  | cons p L ih =>
    rw [List.foldl_cons, ih]
    simp only [IntegerCovariance.ConsumeOne, List.map_cons, List.sum_cons,
      List.length_cons]
    congr 1 <;> push_cast <;> ring

theorem intConsumeList_count (L : List (ℤ × ℤ)) :
    (intConsumeList L).count = L.length := by
  simp [intConsumeList, intConsumeList_foldl]

theorem intConsumeList_sum_x (L : List (ℤ × ℤ)) :
    (intConsumeList L).sum_x = (L.map Prod.fst).sum := by
  simp [intConsumeList, intConsumeList_foldl]

theorem intConsumeList_sum_y (L : List (ℤ × ℤ)) :
    (intConsumeList L).sum_y = (L.map Prod.snd).sum := by
  simp [intConsumeList, intConsumeList_foldl]

theorem intConsumeList_sum_xy (L : List (ℤ × ℤ)) :
    (intConsumeList L).sum_xy = (L.map (fun p => p.1 * p.2)).sum := by
  simp [intConsumeList, intConsumeList_foldl]

end IntegerAccumLemmas

/-- C6: for a nonempty `IntegerCovariance` history, `m_xy()` equals
`double(sum_xy − q) − double(r)/count` with `q`/`r` the exact truncated
quotient and remainder of `sum_x*sum_y` by `count`, and hence — in exact
arithmetic — `Σ xᵢyᵢ − (Σ xᵢ)(Σ yᵢ)/count`; only the remainder (bounded
by `count`) ever crosses into the double domain. -/
theorem integer_m_xy_exact (L : List (ℤ × ℤ)) (hL : L ≠ []) :
    (intConsumeList L).m_xy
        = (((intConsumeList L).sum_xy
              - ((intConsumeList L).sum_x * (intConsumeList L).sum_y).tdiv
                  (intConsumeList L).count : ℤ) : ℚ)
          - ((((intConsumeList L).sum_x * (intConsumeList L).sum_y).tmod
                  (intConsumeList L).count : ℤ) : ℚ)
            / ((intConsumeList L).count : ℚ)
    ∧ (intConsumeList L).m_xy
        = (L.map (fun p => (p.1 : ℚ) * (p.2 : ℚ))).sum
          - (L.map (fun p => (p.1 : ℚ))).sum * (L.map (fun p => (p.2 : ℚ))).sum
            / (L.length : ℚ) := by
  constructor
  · rfl
  · have hzi : (L.length : ℤ) ≠ 0 := by
      exact_mod_cast fun h => hL (List.length_eq_zero.mp h)
    have hnz : (L.length : ℚ) ≠ 0 := by
      exact_mod_cast fun h => hL (List.length_eq_zero.mp h)
    have hsx : ((intConsumeList L).sum_x : ℚ) = (L.map (fun p => (p.1 : ℚ))).sum := by
      rw [intConsumeList_sum_x, Int.cast_list_sum, List.map_map]
      exact congrArg List.sum (List.map_congr_left (fun p _ => rfl))
    have hsy : ((intConsumeList L).sum_y : ℚ) = (L.map (fun p => (p.2 : ℚ))).sum := by
      rw [intConsumeList_sum_y, Int.cast_list_sum, List.map_map]
      exact congrArg List.sum (List.map_congr_left (fun p _ => rfl))
    have hsxy : ((intConsumeList L).sum_xy : ℚ)
        = (L.map (fun p => (p.1 : ℚ) * (p.2 : ℚ))).sum := by
      rw [intConsumeList_sum_xy, Int.cast_list_sum, List.map_map]
      refine congrArg List.sum (List.map_congr_left (fun p _ => ?_))
      simp [Function.comp]
    simp only [IntegerCovariance.m_xy, intConsumeList_count]
    set S : ℤ := (intConsumeList L).sum_x * (intConsumeList L).sum_y with hS
    have hdivmod : ((L.length : ℤ)) * (S.tdiv (L.length : ℤ))
        + S.tmod (L.length : ℤ) = S := Int.tdiv_add_tmod S _
    have hq : ((S.tdiv (L.length : ℤ)) : ℚ)
        = ((S : ℚ) - ((S.tmod (L.length : ℤ)) : ℚ)) / (L.length : ℚ) := by
      rw [eq_div_iff hnz]
      have h := congrArg (fun z : ℤ => (z : ℚ)) hdivmod
      push_cast at h
      linarith
    have hScast : (S : ℚ)
        = ((intConsumeList L).sum_x : ℚ) * ((intConsumeList L).sum_y : ℚ) := by
      rw [hS]; push_cast; ring
    rw [Int.cast_sub, hq, hScast, hsx, hsy, hsxy]
    push_cast
    field_simp
    ring

/-- Witness for C6 at a concrete two-element history. -/
theorem integer_m_xy_exact_witness :
    (intConsumeList [((1 : ℤ), (2 : ℤ)), (3, 5)]).m_xy
      = ([((1 : ℤ), (2 : ℤ)), (3, 5)].map (fun p => (p.1 : ℚ) * (p.2 : ℚ))).sum
        - ([((1 : ℤ), (2 : ℤ)), (3, 5)].map (fun p => (p.1 : ℚ))).sum
            * ([((1 : ℤ), (2 : ℤ)), (3, 5)].map (fun p => (p.2 : ℚ))).sum
          / (([((1 : ℤ), (2 : ℤ)), (3, 5)] : List (ℤ × ℤ)).length : ℚ) :=
  (integer_m_xy_exact [((1 : ℤ), (2 : ℤ)), (3, 5)] (by decide)).2

section ConsumeLoopLemmas

/-- When both operands fit in a single slice, the integer-path loop is one
exact accumulation merged into the running state (or a no-op when either
operand has no valid element). -/
theorem consumeLoop_short (w : ℕ) (s : CovarianceState) (xs ys : Arr ℤ)
    (hx : xs.length ≤ intPathMaxLen w) (hy : ys.length ≤ intPathMaxLen w) :
    consumeLoop w s xs ys
      = if validCount xs = 0 ∨ validCount ys = 0 then s
        else s.MergeFrom (intChunkState s.decimal_scale s.options xs ys) := by
  rw [consumeLoop]
  split_ifs with h
  · rfl
  · push_neg at h
    obtain ⟨h1, h2⟩ := h
    dsimp only
    rw [List.take_of_length_le hx, List.take_of_length_le hy,
      List.drop_eq_nil_of_le hx, List.drop_eq_nil_of_le hy]
    rw [if_pos ⟨Nat.pos_of_ne_zero h1, Nat.pos_of_ne_zero h2⟩]
    rw [consumeLoop]
    simp [validCount]

end ConsumeLoopLemmas

/-- C4 (claim refuted, documenting the code bug): on mismatched valid
counts the float path does *not* return an InvalidArgument status — it
raises `std::runtime_error("valid values from array1 must equal array2")`
(modelled as `Except.error`), which `CovarianceImpl::Consume`
(corr.cc:312-323) never catches, so it crosses the public boundary as an
uncaught exception; and the integer path performs no valid-count check at
all: on the same mismatched input it silently consumes the pairs at the
x-valid positions (here one pair, giving `count = 1`). -/
theorem valid_count_mismatch_behavior :
    ConsumeFloat (initState 0 ⟨1, true, 0⟩) [some 1, none] [some 1, some 2]
        = Except.error "valid values from array1 must equal array2"
    ∧ (ConsumeInt 8 (initState 0 ⟨1, true, 0⟩)
        [some 1, none] [some 1, some 2]).count = 1 := by
  constructor
  · rfl
  · have hlen : ([some (1 : ℤ), none] : Arr ℤ).length ≤ intPathMaxLen 8 := by
      simp [intPathMaxLen]
    have hlen2 : ([some (1 : ℤ), some 2] : Arr ℤ).length ≤ intPathMaxLen 8 := by
      simp [intPathMaxLen]
    simp only [ConsumeInt]
    rw [if_neg (by decide)]
    rw [consumeLoop_short 8 _ _ _ hlen hlen2]
    decide

/-- C8 counterexample: with `periods = 2` on a length-1 input, the output
has length 2, not the input length — the positive-shift branch appends
`shift_len` fills and then `max(0, N - shift_len)` copied values, so for
`|periods| > length` the output is longer than the input. -/
theorem shift_length_cex :
    (shiftList [some (1 : ℚ)] 2 none).length
      ≠ ([some (1 : ℚ)] : Arr ℚ).length := by
  decide

/-- C8 (amended): *provided `|periods| ≤ length`*, `Shift` returns an
output of the input's length; for `periods > 0`, position `i ≥ periods`
holds `input[i - periods]` and the first `periods` positions hold the
fill slot (the fill value, or null when none is given); for
`periods ≤ 0`, position `i < length - |periods|` holds
`input[i - periods] = input[i + |periods|]` and the last `|periods|`
positions hold the fill slot.  (When `|periods| > length` the output has
length `|periods|` instead — the counterexample.) -/
theorem shift_semantics (x : Arr ℚ) (p : ℤ) (fill : Option ℚ)
    (h : p.natAbs ≤ x.length) :
    (shiftList x p fill).length = x.length
    ∧ (0 < p → ∀ i : ℕ, p.natAbs ≤ i → i < x.length →
        (shiftList x p fill)[i]? = x[i - p.natAbs]?)
    ∧ (0 < p → ∀ i : ℕ, i < p.natAbs →
        (shiftList x p fill)[i]? = some fill)
    ∧ (p ≤ 0 → ∀ i : ℕ, i < x.length - p.natAbs →
        (shiftList x p fill)[i]? = x[i + p.natAbs]?)
    ∧ (p ≤ 0 → ∀ i : ℕ, x.length - p.natAbs ≤ i → i < x.length →
        (shiftList x p fill)[i]? = some fill) := by
  refine ⟨?_, ?_, ?_, ?_, ?_⟩
  · simp only [shiftList]
    split_ifs with hp
    · simp only [List.length_append, List.length_replicate, List.length_take]
      omega
    · simp only [List.length_append, List.length_replicate, List.length_drop]
      omega
  · intro hp i hi hilen
    simp only [shiftList, if_pos hp]
    rw [List.getElem?_append_right (by simpa using hi)]
    simp only [List.length_replicate]
    rw [List.getElem?_take]
    rw [if_pos (by omega)]
  · intro hp i hi
    simp only [shiftList, if_pos hp]
    rw [List.getElem?_append, if_pos (by simpa using hi)]
    simp [List.getElem?_replicate, hi]
  · intro hp i hi
    have hnp : ¬(0 < p) := by omega
    simp only [shiftList, if_neg hnp]
    rw [List.getElem?_append, if_pos (by simp only [List.length_drop]; omega)]
    rw [List.getElem?_drop]
    congr 1
    omega
  · intro hp i hi hilen
    have hnp : ¬(0 < p) := by omega
    simp only [shiftList, if_neg hnp]
    rw [List.getElem?_append_right (by simp only [List.length_drop]; omega)]
    simp only [List.length_drop]
    rw [List.getElem?_replicate]
    rw [if_pos (by omega)]

/-- Witness for the amended C8: shifting `[1, 2, 3]` by one period with no
fill gives `[null, 1, 2]`, checked through the theorem at `i = 0, 1, 2`. -/
theorem shift_semantics_witness :
    (shiftList [some (1 : ℚ), some 2, some 3] 1 none).length = 3
    ∧ (shiftList [some (1 : ℚ), some 2, some 3] 1 none)[0]? = some none
    ∧ (shiftList [some (1 : ℚ), some 2, some 3] 1 none)[2]?
        = ([some (1 : ℚ), some 2, some 3] : Arr ℚ)[1]? := by
  have h := shift_semantics [some (1 : ℚ), some 2, some 3] 1 none (by decide)
  exact ⟨h.1, h.2.2.1 (by decide) 0 (by decide),
    h.2.1 (by decide) 2 (by decide) (by decide)⟩

/-- C9 (claim refuted, documenting the code bug): `AutoCorr` does fail
with InvalidArgument when `lag > length` (first conjunct), but for
`1 ≤ lag ≤ length` on an all-valid input it does *not* return the
documented finite value: shifting with a null fill makes the shifted
operand's valid count `length - lag ≠ length`, so the covariance step
raises the mismatched-valid-count `std::runtime_error`, which escapes
`AutoCorr` uncaught (second conjunct, at `values = [1, 2, 3]`,
`lag = 1`). -/
theorem autocorr_raises_on_positive_lag :
    AutoCorr [some (1 : ℚ)] 2
        = Except.error "Lag cannot be greater than the length of the array"
    ∧ AutoCorr [some (1 : ℚ), some 2, some 3] 1
        = Except.error "valid values from array1 must equal array2" := by
  constructor
  · rfl
  · rfl

/-- C10 counterexample: under `skip_nulls = false`, a second `Consume`
whose chunk has equal *positive* valid counts but contains nulls returns
early after setting `all_valid`, leaving the *first* chunk's numeric
state in place (`count = 2`), whereas consuming that second chunk into a
fresh accumulator leaves `count = 0` — so the state after the second
call does not equal the fresh-consume state even though the chunk is
non-empty. -/
theorem consume_not_fresh_cex :
    ((ConsumeFloat (initState 0 ⟨1, false, 0⟩)
          [some 1, some 2] [some 3, some 4]).bind
        (fun s1 => ConsumeFloat s1 [some 5, none] [none, some 6])).map
        CovarianceState.count
      = Except.ok 2
    ∧ (ConsumeFloat (initState 0 ⟨1, false, 0⟩)
          [some 5, none] [none, some 6]).map CovarianceState.count
      = Except.ok 0 := by
  constructor
  · rfl
  · rfl

section ConsumeOverwriteLemmas

/-- The success branch of the float `Consume` path assigns every mutable
field from the current chunk alone. -/
theorem consumeFloat_eq_ok (s : CovarianceState) (ax ay : Arr ℚ)
    (hcnt : (ax.length : ℤ) - (nullCount ax : ℤ)
        = (ay.length : ℤ) - (nullCount ay : ℤ))
    (hnz : (ax.length : ℤ) - (nullCount ax : ℤ) ≠ 0)
    (hskip : chunkAllValid ax ay = false → s.options.skip_nulls = true) :
    ConsumeFloat s ax ay
      = Except.ok (floatChunkResult s.decimal_scale s.options ax ay) := by
  simp only [ConsumeFloat]
  rw [if_neg (by simpa using hcnt)]
  rw [if_neg]
  · rfl
  · rintro (hc | ⟨hav, hsk⟩)
    · exact hnz hc
    · rw [hskip hav] at hsk
      cases hsk

end ConsumeOverwriteLemmas

/-- C10 (amended): on the float/wide path, whenever a chunk passes the
`Consume` checks (equal and positive valid counts, and not
nulls-under-strict-mode, which would trigger the early return that
*retains* the previous numeric state — the counterexample), `Consume`
yields a state independent of every mutable field of the receiver: any
two receivers sharing `decimal_scale` and options — in particular, one
that already consumed a chunk and a fresh one — end in the same state,
and that state is the current chunk's alone.  Likewise
`CorrelationState::Consume` overwrites `mx2`/`my2` from the current
chunk.  Cross-chunk accumulation therefore happens only via `MergeFrom`. -/
theorem consume_overwrites_state :
    (∀ (s s' : CovarianceState) (ax ay : Arr ℚ),
      s.options = s'.options → s.decimal_scale = s'.decimal_scale →
      (ax.length : ℤ) - (nullCount ax : ℤ) = (ay.length : ℤ) - (nullCount ay : ℤ) →
      (ax.length : ℤ) - (nullCount ax : ℤ) ≠ 0 →
      (chunkAllValid ax ay = false → s.options.skip_nulls = true) →
      ConsumeFloat s ax ay = ConsumeFloat s' ax ay)
    ∧ (∀ (st st' : CorrelationState) (ax ay : Arr ℚ),
      st.covarianceState.options = st'.covarianceState.options →
      st.covarianceState.decimal_scale = st'.covarianceState.decimal_scale →
      (ax.length : ℤ) - (nullCount ax : ℤ) = (ay.length : ℤ) - (nullCount ay : ℤ) →
      (ax.length : ℤ) - (nullCount ax : ℤ) ≠ 0 →
      (chunkAllValid ax ay = false →
        st.covarianceState.options.skip_nulls = true) →
      st.Consume ax ay = st'.Consume ax ay) := by
  have base : ∀ (s s' : CovarianceState) (ax ay : Arr ℚ),
      s.options = s'.options → s.decimal_scale = s'.decimal_scale →
      (ax.length : ℤ) - (nullCount ax : ℤ) = (ay.length : ℤ) - (nullCount ay : ℤ) →
      (ax.length : ℤ) - (nullCount ax : ℤ) ≠ 0 →
      (chunkAllValid ax ay = false → s.options.skip_nulls = true) →
      ConsumeFloat s ax ay = ConsumeFloat s' ax ay := by
    intro s s' ax ay hopt hds hcnt hnz hskip
    rw [consumeFloat_eq_ok s ax ay hcnt hnz hskip,
      consumeFloat_eq_ok s' ax ay hcnt hnz (by rw [← hopt]; exact hskip),
      hopt, hds]
  refine ⟨base, ?_⟩
  intro st st' ax ay hopt hds hcnt hnz hskip
  simp only [CorrelationState.Consume]
  rw [base st.covarianceState st'.covarianceState ax ay hopt hds hcnt hnz hskip]

/-- Witness for the amended C10: a receiver that already consumed
`([1,2],[3,4])` and a fresh receiver agree after consuming `([5],[6])`. -/
theorem consume_overwrites_state_witness :
    ConsumeFloat ⟨2, 3/2, 7/2, 1/2, true, 0, ⟨1, false, 0⟩⟩ [some 5] [some 6]
      = ConsumeFloat (initState 0 ⟨1, false, 0⟩) [some 5] [some 6] := by
  exact consume_overwrites_state.1
    ⟨2, 3/2, 7/2, 1/2, true, 0, ⟨1, false, 0⟩⟩
    (initState 0 ⟨1, false, 0⟩) [some 5] [some 6]
    rfl rfl (by decide) (by decide) (by decide)

section AllValidLemmas

/-- Any successful float-path `Consume` leaves `all_valid` equal to the
current chunk's predicate (it is assigned before every return). -/
theorem consumeFloat_all_valid (s t : CovarianceState) (ax ay : Arr ℚ)
    (h : ConsumeFloat s ax ay = Except.ok t) :
    t.all_valid = chunkAllValid ax ay := by
  simp only [ConsumeFloat] at h
  split_ifs at h with h1 h2
  all_goals simp only [Except.ok.injEq] at h
  all_goals subst h
  all_goals rfl

/-- The integer-path chunk loop never changes `all_valid`: each folded
slice state is fresh (`all_valid = true`) and `MergeFrom` ANDs it in. -/
theorem consumeLoop_all_valid (w : ℕ) (s : CovarianceState) (xs ys : Arr ℤ) :
    (consumeLoop w s xs ys).all_valid = s.all_valid := by
  generalize hfuel : xs.length = n
  induction n using Nat.strong_induction_on generalizing s xs ys with
  | _ n ih =>
    subst hfuel
    rw [consumeLoop]
    split_ifs with h
    · rfl
    · have hml : 0 < intPathMaxLen w := Nat.pos_pow_of_pos _ (by norm_num)
      have hxe : xs ≠ [] := by
        intro hnil
        exact h (Or.inl (by simp [hnil, validCount]))
      have hlen : 0 < xs.length := List.length_pos.mpr hxe
      dsimp only
      rw [ih (xs.drop (intPathMaxLen w)).length
        (by simp only [List.length_drop]; omega) _ _ _ rfl]
      split_ifs with h2
      · rw [mergeFrom_all_valid]
        simp [intChunkState]
      · rfl

/-- The integer `Consume` path likewise assigns `all_valid` from the
current chunk alone. -/
theorem consumeInt_all_valid (w : ℕ) (s : CovarianceState) (xs ys : Arr ℤ) :
    (ConsumeInt w s xs ys).all_valid = chunkAllValid xs ys := by
  simp only [ConsumeInt]
  split_ifs with h
  · rfl
  · rw [consumeLoop_all_valid]

end AllValidLemmas

/-- C3 counterexample: `Consume` *assigns* `all_valid` instead of ANDing
it, so on an accumulator that consumes twice the flag is that of the last
chunk only: after consuming a null-containing chunk and then a clean one,
`all_valid` is `true` while the AND over both chunks is `false`. -/
theorem all_valid_overwritten_cex :
    ((ConsumeFloat (initState 0 ⟨1, false, 0⟩)
          [some 1, none] [none, some 2]).bind
        (fun s1 => ConsumeFloat s1 [some 1] [some 2])).map
        CovarianceState.all_valid
      = Except.ok true
    ∧ (chunkAllValid [some (1 : ℚ), none] [none, some (2 : ℚ)]
        && chunkAllValid [some (1 : ℚ)] [some (2 : ℚ)]) = false := by
  constructor
  · rfl
  · rfl

/-- C3 (amended): *for accumulators that Consume at most one chunk, as
their first operation* (the discipline under which the engine merges
partial states), `all_valid` equals the AND, over every chunk in the
accumulator's history, of "the chunk contained no null in either
operand"; a second `Consume` overwrites the flag (the counterexample).
And once `all_valid` is false with `skip_nulls = false`, both finalizers
yield "no value". -/
theorem all_valid_and_over_history :
    (∀ (ds : ℤ) (opts : VarianceOptions) (s : CovarianceState)
        (bs : List Bool), WfAcc ds opts s bs → s.all_valid = bs.all id)
    ∧ (∀ s : CovarianceState, s.all_valid = false →
        s.options.skip_nulls = false → FinalizeCov s = none)
    ∧ (∀ st : CorrelationState, st.covarianceState.all_valid = false →
        st.covarianceState.options.skip_nulls = false →
        FinalizeCorr st = none) := by
  refine ⟨?_, ?_, ?_⟩
  · intro ds opts s bs hwf
    induction hwf with
    | fresh => rfl
    | consumeF ax ay s h =>
      rw [consumeFloat_all_valid _ _ _ _ h]
      simp
    | consumeI w ax ay =>
      rw [consumeInt_all_valid]
      simp
    | merge s o bs cs hs ho ihs iho =>
      rw [mergeFrom_all_valid, ihs, iho, List.all_append]
  · intro s h1 h2
    unfold FinalizeCov
    rw [if_pos (Or.inr (Or.inr ⟨h1, h2⟩))]
  · intro st h1 h2
    simp only [FinalizeCorr]
    rw [if_pos (Or.inr (Or.inr ⟨h1, h2⟩))]

/-- Witness for the amended C3: a single integer-path consume on a fresh
accumulator, checked through the theorem. -/
theorem all_valid_and_over_history_witness :
    (ConsumeInt 8 (initState 0 ⟨1, true, 0⟩) [some 1] [some 2]).all_valid
      = ([chunkAllValid ([some 1] : Arr ℤ) ([some 2] : Arr ℤ)]).all id := by
  exact all_valid_and_over_history.1 0 ⟨1, true, 0⟩ _ _
    (WfAcc.consumeI 8 [some 1] [some 2])

section BoundLemmas

/-- Triangle inequality for a list sum of integers. -/
theorem abs_listSum_le (l : List ℤ) : |l.sum| ≤ (l.map (fun x => |x|)).sum := by
  induction l with
  | nil => simp
  | cons a l ih =>
    simp only [List.sum_cons, List.map_cons]
    exact le_trans (abs_add a l.sum) (by linarith)

/-- A list of integers each bounded by `B` in magnitude sums to at most
`length * B` in magnitude. -/
theorem listSum_abs_le_mul (l : List ℤ) (B : ℤ) (h : ∀ x ∈ l, |x| ≤ B) :
    |l.sum| ≤ (l.length : ℤ) * B := by
  refine le_trans (abs_listSum_le l) ?_
  have h2 := List.sum_le_card_nsmul (l.map (fun x => |x|)) B
    (by
      intro x hx
      obtain ⟨a, ha, rfl⟩ := List.mem_map.mp hx
      exact h a ha)
  simpa [nsmul_eq_mul] using h2

theorem abs_lt_of_le_mul (S n M B T : ℤ) (h1 : |S| ≤ n * B) (h2 : n ≤ M)
    (hB : 0 ≤ B) (h3 : M * B < T) : |S| < T := by
  have h4 : n * B ≤ M * B := mul_le_mul_of_nonneg_right h2 hB
  linarith

end BoundLemmas

/-- C7: every slice the integer path hands to a fresh
`IntegerCovariance` has length at most `2^(63 - w)` (`w` the element bit
width, 8/16/32); and for any pair list of that length whose entries fit
the element type (magnitude at most `2^w - 1`, covering the signed and
unsigned ranges alike), the accumulated `sum_x`/`sum_y` stay strictly
inside the signed 64-bit range and `sum_xy` strictly inside the signed
128-bit range — the model has no error path, matching the structural
overflow-prevention design. -/
theorem integer_path_no_overflow (w : ℕ) (hw : w = 8 ∨ w = 16 ∨ w = 32) :
    (∀ xs ys : Arr ℤ,
      (xValidPairs (xs.take (intPathMaxLen w))
          (ys.take (intPathMaxLen w))).length ≤ intPathMaxLen w)
    ∧ (∀ L : List (ℤ × ℤ), L.length ≤ intPathMaxLen w →
        (∀ p ∈ L, |p.1| ≤ 2 ^ w - 1 ∧ |p.2| ≤ 2 ^ w - 1) →
        |(intConsumeList L).sum_x| < 2 ^ 63
        ∧ |(intConsumeList L).sum_y| < 2 ^ 63
        ∧ |(intConsumeList L).sum_xy| < 2 ^ 127) := by
  constructor
  · intro xs ys
    refine le_trans (List.length_filterMap_le _ _) ?_
    rw [List.length_zip]
    simp only [List.length_take]
    omega
  · intro L hlen hb
    have hx : ∀ x ∈ L.map Prod.fst, |x| ≤ 2 ^ w - 1 := by
      intro x hx
      obtain ⟨p, hp, rfl⟩ := List.mem_map.mp hx
      exact (hb p hp).1
    have hy : ∀ x ∈ L.map Prod.snd, |x| ≤ 2 ^ w - 1 := by
      intro x hx
      obtain ⟨p, hp, rfl⟩ := List.mem_map.mp hx
      exact (hb p hp).2
    have hxy : ∀ x ∈ L.map (fun p => p.1 * p.2), |x| ≤ (2 ^ w - 1) ^ 2 := by
      intro x hx
      obtain ⟨p, hp, rfl⟩ := List.mem_map.mp hx
      have h1 := (hb p hp).1
      have h2 := (hb p hp).2
      calc |p.1 * p.2| = |p.1| * |p.2| := abs_mul _ _
        _ ≤ (2 ^ w - 1) * (2 ^ w - 1) :=
            mul_le_mul h1 h2 (abs_nonneg _) (le_trans (abs_nonneg _) h1)
        _ = (2 ^ w - 1) ^ 2 := by ring
    have bx := listSum_abs_le_mul (L.map Prod.fst) _ hx
    have bsy := listSum_abs_le_mul (L.map Prod.snd) _ hy
    have bxy := listSum_abs_le_mul (L.map (fun p => p.1 * p.2)) _ hxy
    rw [List.length_map] at bx bsy bxy
    have hM : (L.length : ℤ) ≤ ((intPathMaxLen w : ℕ) : ℤ) := by
      exact_mod_cast hlen
    refine ⟨?_, ?_, ?_⟩
    · rw [intConsumeList_sum_x]
      rcases hw with rfl | rfl | rfl <;>
        exact abs_lt_of_le_mul _ _ ((intPathMaxLen _ : ℕ) : ℤ) _ _ bx hM
          (by norm_num) (by norm_num [intPathMaxLen])
    · rw [intConsumeList_sum_y]
      rcases hw with rfl | rfl | rfl <;>
        exact abs_lt_of_le_mul _ _ ((intPathMaxLen _ : ℕ) : ℤ) _ _ bsy hM
          (by norm_num) (by norm_num [intPathMaxLen])
    · rw [intConsumeList_sum_xy]
      rcases hw with rfl | rfl | rfl <;>
        exact abs_lt_of_le_mul _ _ ((intPathMaxLen _ : ℕ) : ℤ) _ _ bxy hM
          (by norm_num) (by norm_num [intPathMaxLen])

/-- Witness for C7 at `w = 8` and a one-pair slice. -/
theorem integer_path_no_overflow_witness :
    |(intConsumeList [((1 : ℤ), (2 : ℤ))]).sum_xy| < 2 ^ 127 := by
  exact ((integer_path_no_overflow 8 (Or.inl rfl)).2 [((1 : ℤ), (2 : ℤ))]
    (by norm_num [intPathMaxLen]) (by decide)).2.2

end ArrowAdditional
